import Mathlib

/-!
# Verification of the eval-set scheduling/retry/resume engine

A shallow embedding of the evaluation-run orchestrator: task identity and
log index, resolved task set, the two scheduling passes, and the
orchestration loop, together with theorems checking the specified
behavior. The engine itself is not part of the provided sources (only its
test suite is), so every definition of the engine is modelled from the
specification, as indicated in its doc comment.
-/

set_option maxHeartbeats 1600000

namespace EvalSet

/-- Modelled from the spec: ModelRef, an opaque identifier for a model
backend (string-like); equality is by identifier value (§3). -/
abbrev ModelRef := String

/-- Modelled from the spec: LogicalTask identity = (name, ordered mapping
of string→scalar parameters); two tasks are the same instance iff name and
parameters are structurally equal (§3). -/
structure TaskId where
  name : String
  params : List (String × String)
deriving DecidableEq

/-- Modelled from the spec: ResolvedTask, the immutable binding of
{LogicalTask identity, ModelRef, submission sequence number} (§3); the
execution arguments and sandbox handle are opaque to the scheduler and
omitted. -/
structure ResolvedTask where
  taskId : TaskId
  model : ModelRef
  sequence : Nat
deriving DecidableEq

/-- Modelled from the spec: ModelGroup / ModelList, an ordered
duplicate-free sequence of ModelRef used as the scheduling batch key
(§3). -/
abbrev ModelList := List ModelRef

/-- Order-preserving deduplication: keeps the first occurrence of each
element, in first-encountered order (§3 ModelGroup construction). -/
def dedupFirst {α : Type} [DecidableEq α] : List α → List α
  | [] => []
  | x :: xs => x :: (dedupFirst xs).filter (fun y => y ≠ x)

theorem mem_dedupFirst {α : Type} [DecidableEq α] {x : α} :
    ∀ {l : List α}, x ∈ dedupFirst l ↔ x ∈ l
  | [] => Iff.rfl
  | y :: ys => by
    simp only [dedupFirst, List.mem_cons, List.mem_filter, @mem_dedupFirst α _ x ys,
      decide_eq_true_eq]
    constructor
    · rintro (rfl | ⟨h, _⟩)
      · exact Or.inl rfl
      · exact Or.inr h
    · rintro (rfl | h)
      · exact Or.inl rfl
      · by_cases hx : x = y
        · exact Or.inl hx
        · exact Or.inr ⟨h, hx⟩

theorem nodup_dedupFirst {α : Type} [DecidableEq α] :
    ∀ (l : List α), (dedupFirst l).Nodup
  | [] => List.nodup_nil
  | y :: ys => by
    refine List.nodup_cons.mpr ⟨?_, List.Nodup.filter _ (nodup_dedupFirst ys)⟩
    intro hy
    have := (List.mem_filter.mp hy).2
    simp at this

/-- Modelled from the spec: the pending model set of a task identity — the
ModelGroup formed, in encounter order, from the ModelRef of every
ResolvedTask carrying that identity (§4.3 scheduleFirstPass step 1). -/
def pendingModels (ts : List ResolvedTask) (id : TaskId) : ModelList :=
  dedupFirst ((ts.filter (fun t => t.taskId = id)).map (fun t => t.model))

/-- The distinct pending model sets, one per distinct task identity, in
encounter order (§4.3 scheduleFirstPass step 2 grouping keys). -/
def taskGroups (ts : List ResolvedTask) : List ModelList :=
  dedupFirst ((dedupFirst (ts.map (fun t => t.taskId))).map (pendingModels ts))

/-- Modelled from the spec: scheduleFirstPass (§4.3). Groups task
identities by structurally-equal pending model set; each group yields one
(ModelGroup, tasks) batch; batches are ordered ascending by the number of
distinct models in the group, stably (encounter order breaks ties). -/
def schedule_pending_tasks (ts : List ResolvedTask) :
    List (ModelList × List ResolvedTask) :=
  List.insertionSort (fun a b => a.1.length ≤ b.1.length)
    ((taskGroups ts).map (fun g => (g, ts.filter (fun t => pendingModels ts t.taskId = g))))

/-- Modelled from the spec: scheduleRetryPass (§4.3). One singleton batch
per distinct ModelRef, ordered by the model identifier's lexicographic
ordering, each collecting every ResolvedTask whose model equals that
ref. -/
def schedule_retry_tasks (ts : List ResolvedTask) :
    List (ModelList × List ResolvedTask) :=
  (List.insertionSort (fun a b => a ≤ b) (dedupFirst (ts.map (fun t => t.model)))).map
    (fun m => ([m], ts.filter (fun t => t.model = m)))

/-! ### Concrete scheduling scenario from the test suite -/

/-- A task identity with no parameters, as in the scheduling test. -/
def exTask (n : String) : TaskId := ⟨n, []⟩

/-- A resolved task with sequence number 1, as in the scheduling test. -/
def exRT (n : String) (m : ModelRef) : ResolvedTask := ⟨exTask n, m, 1⟩

/-- The varying-models resolved set: task1 targets all three models,
task2 and task4 target openai+anthropic, task3 and task5 target mock. -/
def exVarying : List ResolvedTask :=
  [exRT "task1" "mockllm/openai", exRT "task1" "mockllm/anthropic",
   exRT "task1" "mockllm/model", exRT "task2" "mockllm/openai",
   exRT "task4" "mockllm/openai", exRT "task2" "mockllm/anthropic",
   exRT "task4" "mockllm/anthropic", exRT "task3" "mockllm/model",
   exRT "task5" "mockllm/model"]

/-- The all-models resolved set: every task targets every model, in
task-major submission order. -/
def exAll : List ResolvedTask :=
  [exRT "task1" "mockllm/openai", exRT "task1" "mockllm/anthropic",
   exRT "task1" "mockllm/model",
   exRT "task2" "mockllm/openai", exRT "task2" "mockllm/anthropic",
   exRT "task2" "mockllm/model",
   exRT "task3" "mockllm/openai", exRT "task3" "mockllm/anthropic",
   exRT "task3" "mockllm/model",
   exRT "task4" "mockllm/openai", exRT "task4" "mockllm/anthropic",
   exRT "task4" "mockllm/model",
   exRT "task5" "mockllm/openai", exRT "task5" "mockllm/anthropic",
   exRT "task5" "mockllm/model"]

/-- C1: on the varying-models resolved set, scheduleFirstPass returns
exactly three batches in ascending model-count order — ({mock},
{task3, task5}), then ({openai, anthropic}, {task2, task4}), then
({openai, anthropic, mock}, {task1}) — and when every task targets every
model it returns exactly one batch containing all tasks. -/
theorem schedule_pending_tasks_spec :
    schedule_pending_tasks exVarying =
      [(["mockllm/model"],
        [exRT "task3" "mockllm/model", exRT "task5" "mockllm/model"]),
       (["mockllm/openai", "mockllm/anthropic"],
        [exRT "task2" "mockllm/openai", exRT "task4" "mockllm/openai",
         exRT "task2" "mockllm/anthropic", exRT "task4" "mockllm/anthropic"]),
       (["mockllm/openai", "mockllm/anthropic", "mockllm/model"],
        [exRT "task1" "mockllm/openai", exRT "task1" "mockllm/anthropic",
         exRT "task1" "mockllm/model"])] ∧
    schedule_pending_tasks exAll =
      [(["mockllm/openai", "mockllm/anthropic", "mockllm/model"], exAll)] := by
  constructor <;> rfl

/-! ### Retry-pass scheduling, general properties -/

theorem sortedModels_nodup (ms : List ModelRef) [DecidableEq ModelRef] :
    (List.insertionSort (fun a b => a ≤ b) (dedupFirst ms)).Nodup :=
  (List.perm_insertionSort (fun a b => a ≤ b) (dedupFirst ms)).symm.nodup
    (nodup_dedupFirst ms)

theorem sortedModels_sorted (ms : List ModelRef) :
    (List.insertionSort (fun a b => a ≤ b) (dedupFirst ms)).Sorted (· < ·) :=
  List.Sorted.lt_of_le
    (List.sorted_insertionSort (fun a b => a ≤ b) (dedupFirst ms))
    (sortedModels_nodup ms)

theorem mem_sortedModels {m : ModelRef} {ms : List ModelRef} :
    m ∈ List.insertionSort (fun a b => a ≤ b) (dedupFirst ms) ↔ m ∈ ms := by
  rw [(List.perm_insertionSort (fun a b => a ≤ b) (dedupFirst ms)).mem_iff]
  exact mem_dedupFirst

/-- C2: for every resolved-task set, scheduleRetryPass returns one batch
per distinct model — singleton ModelGroup keys, no two batches sharing a
model, batches strictly ordered by the lexicographic order of their model
identifiers — and each batch contains exactly the ResolvedTasks whose
model equals that identifier, regardless of logical-task identity. -/
theorem schedule_retry_tasks_spec (ts : List ResolvedTask) :
    ((schedule_retry_tasks ts).map (fun b => b.1)).Nodup
    ∧ List.Pairwise
        (fun b c : ModelList × List ResolvedTask => ∀ m ∈ b.1, ∀ n ∈ c.1, m < n)
        (schedule_retry_tasks ts)
    ∧ (∀ b ∈ schedule_retry_tasks ts, ∃ m : ModelRef, b.1 = [m]
        ∧ (∃ t ∈ ts, t.model = m)
        ∧ ∀ rt : ResolvedTask, rt ∈ b.2 ↔ rt ∈ ts ∧ rt.model = m)
    ∧ (∀ m : ModelRef, (∃ t ∈ ts, t.model = m) →
        ∃ b ∈ schedule_retry_tasks ts, b.1 = [m]) := by
  unfold schedule_retry_tasks
  refine ⟨?_, ?_, ?_, ?_⟩
  · rw [List.map_map]
    have : ((fun b : ModelList × List ResolvedTask => b.1) ∘
        (fun m => (([m], ts.filter (fun t => t.model = m)) : ModelList × List ResolvedTask)))
        = fun m : ModelRef => [m] := rfl
    rw [this]
    exact (sortedModels_nodup (ts.map (fun t => t.model))).map
      (fun a b h => by simpa using h)
  · rw [List.pairwise_map]
    have hs := sortedModels_sorted (ts.map (fun t => t.model))
    refine List.Pairwise.imp ?_ hs
    intro a b hab m hm n hn
    simp only [List.mem_singleton] at hm hn
    subst hm; subst hn; exact hab
  · intro b hb
    rw [List.mem_map] at hb
    obtain ⟨m, hm, rfl⟩ := hb
    refine ⟨m, rfl, ?_, ?_⟩
    · rw [mem_sortedModels] at hm
      simpa using hm
    · intro rt
      simp [List.mem_filter]
  · intro m hm
    refine ⟨([m], ts.filter (fun t => t.model = m)), ?_, rfl⟩
    rw [List.mem_map]
    refine ⟨m, ?_, rfl⟩
    rw [mem_sortedModels, List.mem_map]
    obtain ⟨t, ht, rfl⟩ := hm
    exact ⟨t, ht, rfl⟩

/-- Witness for C2 at the varying-models resolved set of the test: the
general retry-pass properties hold there — singleton batch keys, one per
distinct model, in strictly increasing lexicographic order, with exact
per-model contents. -/
theorem schedule_retry_tasks_spec_witness :
    ((schedule_retry_tasks exVarying).map (fun b => b.1)).Nodup
    ∧ List.Pairwise
        (fun b c : ModelList × List ResolvedTask => ∀ m ∈ b.1, ∀ n ∈ c.1, m < n)
        (schedule_retry_tasks exVarying)
    ∧ (∀ b ∈ schedule_retry_tasks exVarying, ∃ m : ModelRef, b.1 = [m]
        ∧ (∃ t ∈ exVarying, t.model = m)
        ∧ ∀ rt : ResolvedTask, rt ∈ b.2 ↔ rt ∈ exVarying ∧ rt.model = m)
    ∧ (∀ m : ModelRef, (∃ t ∈ exVarying, t.model = m) →
        ∃ b ∈ schedule_retry_tasks exVarying, b.1 = [m]) :=
  schedule_retry_tasks_spec exVarying

/-! ### Log model and log index -/

/-- Modelled from the spec: EvalLog status ∈ {started, success, error}
(§3). -/
inductive Status where
  | started
  | success
  | error
deriving DecidableEq

/-- Modelled from the spec: a per-sample outcome, optionally carrying an
error (§3 EvalLog). -/
structure SampleResult where
  error : Option String
deriving DecidableEq

/-- Modelled from the spec: the outcome the external model-execution
collaborator reports for one ResolvedTask run — per-sample outcomes plus
whether the task-level execution itself raised (§6, §4.4 step 2). -/
structure ExecOutcome where
  samples : List SampleResult
  raised : Bool
deriving DecidableEq

/-- Modelled from the spec: EvalLog, the persisted outcome of executing
one ResolvedTask — task identity, resolved model, status, ordered sample
outcomes, the sequence number (log naming), and a timestamp (§3). -/
structure EvalLog where
  taskId : TaskId
  model : ModelRef
  status : Status
  samples : List SampleResult
  sequence : Nat
  timestamp : Nat
deriving DecidableEq

/-- Modelled from the spec: with failOnError set, a sample-level error
aborts the task immediately, so samples after the first failing one are
not run (§4.4 inputs). -/
def takeToFirstError : List SampleResult → List SampleResult
  | [] => []
  | s :: ss => if s.error.isSome then [s] else s :: takeToFirstError ss

/-- Modelled from the spec: the sample list the log records — all samples
when failOnError is false, the prefix up to the first failure when it is
true (§4.4). -/
def observedSamples (failOnError : Bool) (ss : List SampleResult) : List SampleResult :=
  if failOnError then takeToFirstError ss else ss

/-- Whether any sample in the list carries an error. -/
def anyError (ss : List SampleResult) : Bool :=
  ss.any (fun s => s.error.isSome)

/-- Modelled from the spec: a task's own status is error iff any sample
failed or the task-level execution itself raised (§4.4 step 2). -/
def statusOf (failOnError : Bool) (o : ExecOutcome) : Status :=
  if o.raised || anyError (observedSamples failOnError o.samples) then .error else .success

/-- Modelled from the spec: the log written immediately when a task
begins (§4.4 step 2). -/
def startedLog (rt : ResolvedTask) (ts : Nat) : EvalLog :=
  ⟨rt.taskId, rt.model, .started, [], rt.sequence, ts⟩

/-- Modelled from the spec: the final success/error log written when a
task completes (§4.4 step 2). -/
def finalLog (failOnError : Bool) (rt : ResolvedTask) (o : ExecOutcome) (ts : Nat) : EvalLog :=
  ⟨rt.taskId, rt.model, statusOf failOnError o,
    observedSamples failOnError o.samples, rt.sequence, ts⟩

/-- A log is completed when its status is not started (§3). -/
def completed (l : EvalLog) : Bool :=
  l.status ≠ .started

/-- The log with the latest timestamp in a list (earlier entry wins a
tie). -/
def maxByTimestamp : List EvalLog → Option EvalLog
  | [] => none
  | l :: ls =>
    match maxByTimestamp ls with
    | none => some l
    | some m => if m.timestamp ≤ l.timestamp then some l else some m

/-- Modelled from the spec: the most recent completed log in a list —
started logs are discarded, the latest timestamp wins (§4.1). -/
def latestCompletedIn (logs : List EvalLog) : Option EvalLog :=
  maxByTimestamp (logs.filter (fun l => completed l))

/-- All logs in a store for one (task identity, model) pair. -/
def pairLogs (store : List EvalLog) (id : TaskId) (m : ModelRef) : List EvalLog :=
  store.filter (fun l => l.taskId = id ∧ l.model = m)

/-- Modelled from the spec: the authoritative log for a (task identity,
model) pair — the most recent completed persisted record (§3 invariants,
glossary). -/
def authPair (store : List EvalLog) (id : TaskId) (m : ModelRef) : Option EvalLog :=
  latestCompletedIn (pairLogs store id m)

/-- The authoritative log for a ResolvedTask's pair. -/
def authLog (store : List EvalLog) (rt : ResolvedTask) : Option EvalLog :=
  authPair store rt.taskId rt.model

/-- Modelled from the spec: matchPrevious — whether a prior run already
reached status success for the pair, judged on the authoritative log
(§4.1). -/
def succAuth (store : List EvalLog) (id : TaskId) (m : ModelRef) : Bool :=
  match authPair store id m with
  | some l => l.status = .success
  | none => false

/-- matchPrevious for a ResolvedTask's own pair. -/
def successLogged (store : List EvalLog) (rt : ResolvedTask) : Bool :=
  succAuth store rt.taskId rt.model

/-- Modelled from the spec: the pending set — resolved tasks whose pair
is not already marked success (§4.4 step 1 and step 3). -/
def pendingOf (resolved : List ResolvedTask) (store : List EvalLog) : List ResolvedTask :=
  resolved.filter (fun rt => !successLogged store rt)

/-- Modelled from the spec: index(logDir) enumerates all persisted logs
under a location (§4.1); the store itself is the directory in this
embedding. -/
def list_all_eval_logs (store : List EvalLog) : List EvalLog := store

/-- The most recent completed log carrying a given task identity. -/
def latestForId (logs : List EvalLog) (id : TaskId) : Option EvalLog :=
  latestCompletedIn (logs.filter (fun l => l.taskId = id))

/-- Modelled from the spec: latestCompleted(logs, cleanupOlder) — groups
logs by task identity, discards started logs, selects the latest
remaining log per identity; with cleanup set, every non-selected log is
physically deleted (§4.1). Returns (selected, directory contents
afterwards). -/
def latest_completed_task_eval_logs (logs : List EvalLog) (cleanup : Bool) :
    List EvalLog × List EvalLog :=
  let selected := (dedupFirst (logs.map (fun l => l.taskId))).filterMap (latestForId logs)
  (selected, if cleanup then selected else logs)

/-! ### Orchestration loop -/

/-- The interruption budget: `none` means no interruption signal arrives;
`some n` means the signal is observed after `n` more log writes, at the
next task-dispatch boundary (§5 cancellation). -/
def stopB : Option Nat → Bool
  | some 0 => true
  | _ => false

/-- Consume one unit of the interruption budget. -/
def decB : Option Nat → Option Nat
  | some n => some (n - 1)
  | none => none

/-- Modelled from the spec: executing one batch plan — each ResolvedTask
writes a started log immediately, then a final success/error log; once
the interruption signal is observed no new task is started, and a task
interrupted before its final write leaves the started log as the durable
signal of incomplete work (§4.4 step 2, step 7, §5). -/
def execRound (f : Bool) (e : Nat → ResolvedTask → ExecOutcome) (round : Nat) :
    List ResolvedTask → List EvalLog → Option Nat → List EvalLog × Option Nat
  | [], store, b => (store, b)
  | rt :: rts, store, b =>
    if stopB b then (store, b)
    else if stopB (decB b) then (store ++ [startedLog rt store.length], decB b)
    else
      execRound f e round rts
        (store ++ [startedLog rt store.length,
          finalLog f rt (e round rt) (store.length + 1)])
        (decB (decB b))

/-- Modelled from the spec: the round's execution order — the
concatenation of the batches of scheduleFirstPass for round 0 and of
scheduleRetryPass for every retry round (§4.4 step 2). -/
def roundPlan (round : Nat) (pending : List ResolvedTask) : List ResolvedTask :=
  if round = 0 then ((schedule_pending_tasks pending).map (fun b => b.2)).flatten
  else ((schedule_retry_tasks pending).map (fun b => b.2)).flatten

/-- The driver's observable state when the loop stops: the log store, the
number of rounds begun, and the number of retry-wait sleeps performed. -/
structure DriverState where
  store : List EvalLog
  rounds : Nat
  sleeps : Nat
deriving DecidableEq

/-- Modelled from the spec: the orchestration loop (§4.4) — recompute the
pending set from the logs; stop when it is empty (Converged), when the
rounds are exhausted, or when the interruption signal was observed;
otherwise sleep (for retry rounds), execute the round's plan, and
continue. `fuel` is `1 + retryAttempts` initially. -/
def evalSetLoop (f : Bool) (e : Nat → ResolvedTask → ExecOutcome)
    (resolved : List ResolvedTask) :
    Nat → Nat → Option Nat → List EvalLog → Nat → DriverState
  | 0, round, _, store, sleeps => ⟨store, round, sleeps⟩
  | fuel + 1, round, b, store, sleeps =>
    if (pendingOf resolved store).isEmpty then ⟨store, round, sleeps⟩
    else if stopB b then ⟨store, round, sleeps⟩
    else
      evalSetLoop f e resolved fuel (round + 1)
        (execRound f e round (roundPlan round (pendingOf resolved store)) store b).2
        (execRound f e round (roundPlan round (pendingOf resolved store)) store b).1
        (if round = 0 then sleeps else sleeps + 1)

/-- The result of one orchestration invocation: the overall success flag,
the ordered authoritative log list, the final store, and the round/sleep
counters. -/
structure EvalSetResult where
  success : Bool
  logs : List EvalLog
  store : List EvalLog
  rounds : Nat
  sleeps : Nat
deriving DecidableEq

/-- Modelled from the spec: the driver on an already-resolved task set —
runs the loop and returns success iff no pending work remains, together
with one authoritative log per resolved task in submission order (§4.4
final result). -/
def evalSetCore (f : Bool) (e : Nat → ResolvedTask → ExecOutcome)
    (resolved : List ResolvedTask) (retryAttempts : Nat) (b : Option Nat)
    (store0 : List EvalLog) : EvalSetResult :=
  ⟨(pendingOf resolved
      (evalSetLoop f e resolved (retryAttempts + 1) 0 b store0 0).store).isEmpty,
    resolved.filterMap
      (authLog (evalSetLoop f e resolved (retryAttempts + 1) 0 b store0 0).store),
    (evalSetLoop f e resolved (retryAttempts + 1) 0 b store0 0).store,
    (evalSetLoop f e resolved (retryAttempts + 1) 0 b store0 0).rounds,
    (evalSetLoop f e resolved (retryAttempts + 1) 0 b store0 0).sleeps⟩

/-- Modelled from the spec: LogicalTask — identity is (name, ordered
parameters); `content` stands for the task's body (dataset, solver,
scorer), which plays no part in identity (§3). -/
structure LogicalTask where
  name : String
  params : List (String × String)
  content : Nat
deriving DecidableEq

/-- The identity of a logical task: name and parameters only (§3). -/
def taskIdOf (t : LogicalTask) : TaskId := ⟨t.name, t.params⟩

/-- Modelled from the spec: the Resolved Task Set — the cross product of
logical tasks and models in submission order, with monotonically
increasing sequence numbers (§4.2). -/
def resolveTasks (tasks : List LogicalTask) (models : List ModelRef) :
    List ResolvedTask :=
  ((tasks.map (fun t => models.map (fun m => (t, m)))).flatten.enum).map
    (fun p => ⟨taskIdOf p.2.1, p.2.2, p.1⟩)

/-- Modelled from the spec: the eval_set entry point — validates identity
uniqueness before any execution (a violation is a hard configuration
error, no logs written), then runs the driver (§4.2, §7). -/
def eval_set (f : Bool) (e : Nat → ResolvedTask → ExecOutcome)
    (tasks : List LogicalTask) (models : List ModelRef)
    (retryAttempts : Nat) (b : Option Nat) (store0 : List EvalLog) :
    Except String EvalSetResult :=
  if (tasks.map taskIdOf).Nodup then
    Except.ok (evalSetCore f e (resolveTasks tasks models) retryAttempts b store0)
  else
    Except.error "duplicate task identity"

/-! ### Log-index lemmas -/

/-- A success log for the pair exists somewhere in the store (not
necessarily authoritative). -/
def hasSuccess (S : List EvalLog) (id : TaskId) (m : ModelRef) : Prop :=
  ∃ l ∈ S, l.taskId = id ∧ l.model = m ∧ l.status = Status.success

theorem maxByTimestamp_eq_none_iff {L : List EvalLog} :
    maxByTimestamp L = none ↔ L = [] := by
  cases L with
  | nil => simp [maxByTimestamp]
  | cons x xs =>
    simp only [maxByTimestamp]
    cases maxByTimestamp xs with
    | none => simp
    | some m =>
      constructor
      · intro h
        by_cases hle : m.timestamp ≤ x.timestamp <;> simp [hle] at h
      · intro h
        exact absurd h (List.cons_ne_nil _ _)

theorem maxByTimestamp_mem {L : List EvalLog} {l : EvalLog}
    (h : maxByTimestamp L = some l) : l ∈ L := by
  induction L with
  | nil => simp [maxByTimestamp] at h
  | cons x xs ih =>
    rw [maxByTimestamp] at h
    split at h
    · injection h with h
      subst h
      exact List.mem_cons_self _ _
    · rename_i m hx
      split at h
      · injection h with h
        subst h
        exact List.mem_cons_self _ _
      · injection h with h
        subst h
        exact List.mem_cons_of_mem _ (ih hx)

theorem maxByTimestamp_le {L : List EvalLog} {l : EvalLog}
    (h : maxByTimestamp L = some l) : ∀ x ∈ L, x.timestamp ≤ l.timestamp := by
  induction L generalizing l with
  | nil => simp
  | cons x xs ih =>
    rw [maxByTimestamp] at h
    split at h
    · rename_i hx
      injection h with h
      subst h
      have hxs : xs = [] := maxByTimestamp_eq_none_iff.mp hx
      subst hxs
      simp
    · rename_i m hx
      intro y hy
      rcases List.mem_cons.mp hy with rfl | hy2
      · split at h
        · injection h with h
          subst h
          exact Nat.le_refl _
        · rename_i hle
          injection h with h
          subst h
          exact Nat.le_of_lt (Nat.lt_of_not_le hle)
      · have hym := ih hx y hy2
        split at h
        · rename_i hle
          injection h with h
          subst h
          exact Nat.le_trans hym hle
        · injection h with h
          subst h
          exact hym

theorem maxByTimestamp_append_big {M : List EvalLog} {x : EvalLog}
    (h : ∀ l ∈ M, l.timestamp < x.timestamp) :
    maxByTimestamp (M ++ [x]) = some x := by
  induction M with
  | nil => rfl
  | cons a as ih =>
    have ha : a.timestamp < x.timestamp := h a (List.mem_cons_self _ _)
    rw [List.cons_append, maxByTimestamp,
      ih (fun l hl => h l (List.mem_cons_of_mem _ hl))]
    exact if_neg (not_le.mpr ha)

theorem latestCompletedIn_some {logs : List EvalLog} {l : EvalLog}
    (h : latestCompletedIn logs = some l) :
    l ∈ logs ∧ completed l = true
      ∧ ∀ x ∈ logs, completed x = true → x.timestamp ≤ l.timestamp := by
  unfold latestCompletedIn at h
  have hm := List.mem_filter.mp (maxByTimestamp_mem h)
  refine ⟨hm.1, by simpa using hm.2, ?_⟩
  intro x hx hcx
  exact maxByTimestamp_le h x (List.mem_filter.mpr ⟨hx, by simpa using hcx⟩)

theorem latestCompletedIn_isSome_iff {logs : List EvalLog} :
    (latestCompletedIn logs).isSome = true ↔ ∃ l ∈ logs, completed l = true := by
  unfold latestCompletedIn
  constructor
  · intro h
    obtain ⟨l, hl⟩ := Option.isSome_iff_exists.mp h
    have := List.mem_filter.mp (maxByTimestamp_mem hl)
    exact ⟨l, this.1, by simpa using this.2⟩
  · rintro ⟨l, hl, hc⟩
    cases hm : maxByTimestamp (logs.filter (fun l => completed l)) with
    | none =>
      have := maxByTimestamp_eq_none_iff.mp hm
      have hmem : l ∈ logs.filter (fun l => completed l) :=
        List.mem_filter.mpr ⟨hl, by simpa using hc⟩
      rw [this] at hmem
      cases hmem
    | some m => simp [hm]

theorem latestCompletedIn_append_last {L : List EvalLog} {x : EvalLog}
    (hc : completed x = true) (hts : ∀ l ∈ L, l.timestamp < x.timestamp) :
    latestCompletedIn (L ++ [x]) = some x := by
  unfold latestCompletedIn
  rw [List.filter_append]
  have hfx : List.filter (fun l => completed l) [x] = [x] := by simp [hc]
  rw [hfx]
  exact maxByTimestamp_append_big
    (fun l hl => hts l (List.mem_filter.mp hl).1)

theorem pairLogs_append (S T : List EvalLog) (id : TaskId) (m : ModelRef) :
    pairLogs (S ++ T) id m = pairLogs S id m ++ pairLogs T id m :=
  List.filter_append _ _

theorem mem_pairLogs {S : List EvalLog} {id : TaskId} {m : ModelRef} {l : EvalLog} :
    l ∈ pairLogs S id m ↔ l ∈ S ∧ l.taskId = id ∧ l.model = m := by
  unfold pairLogs
  rw [List.mem_filter]
  simp

theorem authPair_append_clean {S T : List EvalLog} {id : TaskId} {m : ModelRef}
    (h : ∀ l ∈ T, ¬(l.taskId = id ∧ l.model = m)) :
    authPair (S ++ T) id m = authPair S id m := by
  unfold authPair
  rw [pairLogs_append]
  have : pairLogs T id m = [] := by
    rw [pairLogs, List.filter_eq_nil_iff]
    intro a ha
    simpa using h a ha
  rw [this, List.append_nil]

theorem authPair_mem {S : List EvalLog} {id : TaskId} {m : ModelRef} {l : EvalLog}
    (h : authPair S id m = some l) :
    l ∈ S ∧ l.taskId = id ∧ l.model = m ∧ completed l = true := by
  unfold authPair at h
  obtain ⟨h1, h2, _⟩ := latestCompletedIn_some h
  obtain ⟨hS, hid, hm⟩ := mem_pairLogs.mp h1
  exact ⟨hS, hid, hm, h2⟩

theorem authPair_isSome_iff {S : List EvalLog} {id : TaskId} {m : ModelRef} :
    (authPair S id m).isSome = true
      ↔ ∃ l ∈ S, l.taskId = id ∧ l.model = m ∧ completed l = true := by
  unfold authPair
  rw [latestCompletedIn_isSome_iff]
  constructor
  · rintro ⟨l, hl, hc⟩
    obtain ⟨hS, hid, hm⟩ := mem_pairLogs.mp hl
    exact ⟨l, hS, hid, hm, hc⟩
  · rintro ⟨l, hS, hid, hm, hc⟩
    exact ⟨l, mem_pairLogs.mpr ⟨hS, hid, hm⟩, hc⟩

theorem authPair_isSome_mono {S T : List EvalLog} {id : TaskId} {m : ModelRef}
    (h : (authPair S id m).isSome = true) :
    (authPair (S ++ T) id m).isSome = true := by
  rw [authPair_isSome_iff] at h ⊢
  obtain ⟨l, hS, hrest⟩ := h
  exact ⟨l, List.mem_append_left _ hS, hrest⟩

theorem succAuth_true_iff {S : List EvalLog} {id : TaskId} {m : ModelRef} :
    succAuth S id m = true
      ↔ ∃ l, authPair S id m = some l ∧ l.status = Status.success := by
  unfold succAuth
  cases h : authPair S id m with
  | none => simp
  | some l => simp

theorem succAuth_exists {S : List EvalLog} {id : TaskId} {m : ModelRef}
    (h : succAuth S id m = true) :
    ∃ l ∈ S, l.taskId = id ∧ l.model = m ∧ l.status = Status.success := by
  obtain ⟨l, hl, hs⟩ := succAuth_true_iff.mp h
  obtain ⟨hS, hid, hm, _⟩ := authPair_mem hl
  exact ⟨l, hS, hid, hm, hs⟩

theorem succAuth_append_clean {S T : List EvalLog} {id : TaskId} {m : ModelRef}
    (h : ∀ l ∈ T, ¬(l.taskId = id ∧ l.model = m)) :
    succAuth (S ++ T) id m = succAuth S id m := by
  unfold succAuth
  rw [authPair_append_clean h]

theorem mem_pendingOf {resolved : List ResolvedTask} {store : List EvalLog}
    {rt : ResolvedTask} :
    rt ∈ pendingOf resolved store ↔ rt ∈ resolved ∧ successLogged store rt = false := by
  unfold pendingOf
  rw [List.mem_filter]
  simp

theorem pendingOf_isEmpty_iff {resolved : List ResolvedTask} {store : List EvalLog} :
    (pendingOf resolved store).isEmpty = true
      ↔ ∀ rt ∈ resolved, successLogged store rt = true := by
  rw [List.isEmpty_iff]
  unfold pendingOf
  rw [List.filter_eq_nil_iff]
  simp

/-! ### Authoritative log selection (C6) -/

theorem latestForId_some {logs : List EvalLog} {id : TaskId} {l : EvalLog}
    (h : latestForId logs id = some l) :
    l ∈ logs ∧ l.taskId = id ∧ completed l = true
      ∧ ∀ x ∈ logs, x.taskId = id → completed x = true → x.timestamp ≤ l.timestamp := by
  unfold latestForId at h
  obtain ⟨h1, h2, h3⟩ := latestCompletedIn_some h
  rw [List.mem_filter] at h1
  refine ⟨h1.1, by simpa using h1.2, h2, ?_⟩
  intro x hx hxid hxc
  exact h3 x (List.mem_filter.mpr ⟨hx, by simpa using hxid⟩) hxc

theorem latestForId_isSome_iff {logs : List EvalLog} {id : TaskId} :
    (latestForId logs id).isSome = true
      ↔ ∃ l ∈ logs, l.taskId = id ∧ completed l = true := by
  unfold latestForId
  rw [latestCompletedIn_isSome_iff]
  constructor
  · rintro ⟨l, hl, hc⟩
    rw [List.mem_filter] at hl
    exact ⟨l, hl.1, by simpa using hl.2, hc⟩
  · rintro ⟨l, hl, hid, hc⟩
    exact ⟨l, List.mem_filter.mpr ⟨hl, by simpa using hid⟩, hc⟩

theorem completed_iff {l : EvalLog} :
    completed l = true ↔ l.status ≠ Status.started := by
  unfold completed
  simp

/-- C6: latest_completed_task_eval_logs, applied to the logs enumerated
by list_all_eval_logs, selects per task identity an authoritative log
that is in the directory, is not a started log, and has the latest
timestamp among that identity's non-started logs; an identity is selected
iff it has at least one non-started log; at most one log is selected per
identity; and with the cleanup flag set, exactly the selected
(authoritative) logs remain on disk afterwards. -/
theorem latest_completed_task_eval_logs_spec (logs : List EvalLog) :
    (∀ l ∈ (latest_completed_task_eval_logs (list_all_eval_logs logs) false).1,
        l ∈ logs ∧ l.status ≠ Status.started
          ∧ ∀ x ∈ logs, x.taskId = l.taskId → x.status ≠ Status.started →
              x.timestamp ≤ l.timestamp)
    ∧ (∀ id : TaskId,
        (∃ l ∈ logs, l.taskId = id ∧ l.status ≠ Status.started)
          ↔ ∃ l ∈ (latest_completed_task_eval_logs (list_all_eval_logs logs) false).1,
              l.taskId = id)
    ∧ (∀ l1 ∈ (latest_completed_task_eval_logs (list_all_eval_logs logs) false).1,
        ∀ l2 ∈ (latest_completed_task_eval_logs (list_all_eval_logs logs) false).1,
          l1.taskId = l2.taskId → l1 = l2)
    ∧ (latest_completed_task_eval_logs (list_all_eval_logs logs) true).2
        = (latest_completed_task_eval_logs (list_all_eval_logs logs) false).1 := by
  have hsel : ∀ {l : EvalLog},
      l ∈ (latest_completed_task_eval_logs (list_all_eval_logs logs) false).1
        ↔ ∃ id ∈ dedupFirst (logs.map (fun x => x.taskId)), latestForId logs id = some l := by
    intro l
    unfold latest_completed_task_eval_logs list_all_eval_logs
    exact List.mem_filterMap
  refine ⟨?_, ?_, ?_, rfl⟩
  · intro l hl
    obtain ⟨id, _, hid⟩ := hsel.mp hl
    obtain ⟨h1, h2, h3, h4⟩ := latestForId_some hid
    refine ⟨h1, completed_iff.mp h3, ?_⟩
    intro x hx hxid hxs
    exact h4 x hx (h2 ▸ hxid) (completed_iff.mpr hxs)
  · intro id
    constructor
    · rintro ⟨l, hl, hid, hs⟩
      have hids : id ∈ dedupFirst (logs.map (fun x => x.taskId)) :=
        mem_dedupFirst.mpr (List.mem_map.mpr ⟨l, hl, hid⟩)
      have hsome : (latestForId logs id).isSome = true :=
        latestForId_isSome_iff.mpr ⟨l, hl, hid, completed_iff.mpr hs⟩
      obtain ⟨l', hl'⟩ := Option.isSome_iff_exists.mp hsome
      exact ⟨l', hsel.mpr ⟨id, hids, hl'⟩, (latestForId_some hl').2.1⟩
    · rintro ⟨l, hl, hid⟩
      obtain ⟨id', _, hid'⟩ := hsel.mp hl
      obtain ⟨h1, h2, h3, _⟩ := latestForId_some hid'
      exact ⟨l, h1, hid, completed_iff.mp h3⟩
  · intro l1 hl1 l2 hl2 heq
    obtain ⟨id1, _, hid1⟩ := hsel.mp hl1
    obtain ⟨id2, _, hid2⟩ := hsel.mp hl2
    have e1 : l1.taskId = id1 := (latestForId_some hid1).2.1
    have e2 : l2.taskId = id2 := (latestForId_some hid2).2.1
    have : id1 = id2 := e1 ▸ e2 ▸ heq
    subst this
    rw [hid1] at hid2
    injection hid2

/-- Two completed logs for one identity with distinct timestamps, as in
the log-directory test. -/
def exLogs : List EvalLog :=
  [⟨⟨"t", []⟩, "m", .success, [], 0, 0⟩, ⟨⟨"t", []⟩, "m", .success, [], 0, 1⟩]

/-! ### Round execution lemmas -/

theorem completed_startedLog {rt : ResolvedTask} {ts : Nat} :
    completed (startedLog rt ts) = false := rfl

theorem statusOf_ne_started {f : Bool} {o : ExecOutcome} :
    statusOf f o ≠ Status.started := by
  unfold statusOf
  split <;> simp

theorem completed_finalLog {f : Bool} {rt : ResolvedTask} {o : ExecOutcome} {ts : Nat} :
    completed (finalLog f rt o ts) = true := by
  rw [completed_iff]
  exact statusOf_ne_started

theorem hasSuccess_append {S T : List EvalLog} {id : TaskId} {m : ModelRef} :
    hasSuccess (S ++ T) id m ↔ hasSuccess S id m ∨ hasSuccess T id m := by
  unfold hasSuccess
  constructor
  · rintro ⟨l, hl, hp⟩
    rcases List.mem_append.mp hl with h | h
    · exact Or.inl ⟨l, h, hp⟩
    · exact Or.inr ⟨l, h, hp⟩
  · rintro (⟨l, hl, hp⟩ | ⟨l, hl, hp⟩)
    · exact ⟨l, List.mem_append_left _ hl, hp⟩
    · exact ⟨l, List.mem_append_right _ hl, hp⟩

theorem authPair_append_noncompleted {S T : List EvalLog} {id : TaskId} {m : ModelRef}
    (h : ∀ l ∈ T, completed l = false) :
    authPair (S ++ T) id m = authPair S id m := by
  unfold authPair latestCompletedIn
  rw [pairLogs_append, List.filter_append]
  have hT : (pairLogs T id m).filter (fun l => completed l) = [] := by
    rw [List.filter_eq_nil_iff]
    intro a ha
    simp [h a (mem_pairLogs.mp ha).1]
  rw [hT, List.append_nil]

theorem succAuth_append_noncompleted {S T : List EvalLog} {id : TaskId} {m : ModelRef}
    (h : ∀ l ∈ T, completed l = false) :
    succAuth (S ++ T) id m = succAuth S id m := by
  unfold succAuth
  rw [authPair_append_noncompleted h]

theorem authPair_append_last {S : List EvalLog} {x : EvalLog} {id : TaskId} {m : ModelRef}
    (hid : x.taskId = id) (hm : x.model = m) (hc : completed x = true)
    (hts : ∀ l ∈ S, l.timestamp < x.timestamp) :
    authPair (S ++ [x]) id m = some x := by
  unfold authPair
  rw [pairLogs_append]
  have hx : pairLogs [x] id m = [x] := by
    simp [pairLogs, hid, hm]
  rw [hx]
  exact latestCompletedIn_append_last hc (fun l hl => hts l (mem_pairLogs.mp hl).1)

theorem succAuth_append_last {S : List EvalLog} {x : EvalLog} {id : TaskId} {m : ModelRef}
    (hid : x.taskId = id) (hm : x.model = m) (hc : completed x = true)
    (hts : ∀ l ∈ S, l.timestamp < x.timestamp) :
    succAuth (S ++ [x]) id m = true ↔ x.status = Status.success := by
  unfold succAuth
  rw [authPair_append_last hid hm hc hts]
  simp

/-- Store well-formedness maintained by the driver: every timestamp is
below the store length (so appended logs are strictly newer), and a
success log for a pair is always that pair's authoritative log (the
driver never executes a pair again after it succeeds). -/
def WF (S : List EvalLog) : Prop :=
  (∀ l ∈ S, l.timestamp < S.length)
    ∧ ∀ id m, hasSuccess S id m → succAuth S id m = true

theorem WF_nil : WF [] := by
  constructor
  · simp
  · rintro id m ⟨l, hl, _⟩
    cases hl

theorem WF_append_started {S : List EvalLog} {rt : ResolvedTask} (hwf : WF S) :
    WF (S ++ [startedLog rt S.length]) := by
  constructor
  · intro l hl
    rcases List.mem_append.mp hl with h | h
    · have := hwf.1 l h
      rw [List.length_append]
      omega
    · rw [List.mem_singleton] at h
      subst h
      rw [List.length_append]
      simp [startedLog]
  · intro id m hs
    have hnc : ∀ l ∈ [startedLog rt S.length], completed l = false := by
      intro l hl
      rw [List.mem_singleton] at hl
      subst hl
      rfl
    rw [succAuth_append_noncompleted hnc]
    rcases hasSuccess_append.mp hs with h | h
    · exact hwf.2 id m h
    · obtain ⟨l, hl, _, _, hsuc⟩ := h
      rw [List.mem_singleton] at hl
      subst hl
      exact absurd hsuc (by simp [startedLog])

theorem WF_append_exec {S : List EvalLog} {f : Bool} {rt : ResolvedTask} {o : ExecOutcome}
    (hwf : WF S)
    (hcase : succAuth S rt.taskId rt.model = false ∨ statusOf f o = Status.success) :
    WF (S ++ [startedLog rt S.length, finalLog f rt o (S.length + 1)]) := by
  have hassoc : S ++ [startedLog rt S.length, finalLog f rt o (S.length + 1)]
      = (S ++ [startedLog rt S.length]) ++ [finalLog f rt o (S.length + 1)] := by
    simp
  rw [hassoc]
  have hwf1 : WF (S ++ [startedLog rt S.length]) := WF_append_started hwf
  have hlen1 : (S ++ [startedLog rt S.length]).length = S.length + 1 := by
    rw [List.length_append]
    rfl
  have hts1 : ∀ l ∈ S ++ [startedLog rt S.length],
      l.timestamp < (finalLog f rt o (S.length + 1)).timestamp := by
    intro l hl
    have := hwf1.1 l hl
    rw [hlen1] at this
    simpa [finalLog] using this
  constructor
  · intro l hl
    rcases List.mem_append.mp hl with h | h
    · have := hts1 l h
      rw [List.length_append, hlen1]
      simp only [finalLog] at this
      omega
    · rw [List.mem_singleton] at h
      subst h
      rw [List.length_append, hlen1]
      simp [finalLog]
  · intro id m hs
    by_cases hpair : rt.taskId = id ∧ rt.model = m
    · obtain ⟨hid, hm⟩ := hpair
      have hlast := @succAuth_append_last (S ++ [startedLog rt S.length])
        (finalLog f rt o (S.length + 1)) id m
        hid hm completed_finalLog hts1
      by_cases hst : statusOf f o = Status.success
      · exact hlast.mpr hst
      · exfalso
        have hfalse : succAuth S id m = false := by
          rcases hcase with h | h
          · rw [← hid, ← hm]
            exact h
          · exact absurd h hst
        rcases hasSuccess_append.mp hs with h1 | h2
        · rcases hasSuccess_append.mp h1 with h3 | h4
          · have := hwf.2 id m h3
            rw [hfalse] at this
            cases this
          · obtain ⟨l, hl, _, _, hsuc⟩ := h4
            rw [List.mem_singleton] at hl
            subst hl
            exact absurd hsuc (by simp [startedLog])
        · obtain ⟨l, hl, _, _, hsuc⟩ := h2
          rw [List.mem_singleton] at hl
          subst hl
          exact hst (by simpa [finalLog] using hsuc)
    · have hclean1 : ∀ l ∈ [finalLog f rt o (S.length + 1)],
          ¬(l.taskId = id ∧ l.model = m) := by
        intro l hl hmatch
        rw [List.mem_singleton] at hl
        subst hl
        exact hpair ⟨hmatch.1, hmatch.2⟩
      have hclean2 : ∀ l ∈ [startedLog rt S.length],
          ¬(l.taskId = id ∧ l.model = m) := by
        intro l hl hmatch
        rw [List.mem_singleton] at hl
        subst hl
        exact hpair ⟨hmatch.1, hmatch.2⟩
      rw [succAuth_append_clean hclean1, succAuth_append_clean hclean2]
      apply hwf.2
      rcases hasSuccess_append.mp hs with h1 | h2
      · rcases hasSuccess_append.mp h1 with h3 | h4
        · exact h3
        · obtain ⟨l, hl, hid, hm, _⟩ := h4
          rw [List.mem_singleton] at hl
          subst hl
          exact absurd ⟨hid, hm⟩ hpair
      · obtain ⟨l, hl, hid, hm, _⟩ := h2
        rw [List.mem_singleton] at hl
        subst hl
        exact absurd ⟨hid, hm⟩ hpair

theorem execRound_ext (f : Bool) (e : Nat → ResolvedTask → ExecOutcome) (r : Nat) :
    ∀ (plan : List ResolvedTask) (store : List EvalLog) (b : Option Nat),
      ∃ ext : List EvalLog,
        (execRound f e r plan store b).1 = store ++ ext
          ∧ ∀ l ∈ ext, ∃ rt ∈ plan,
              l = startedLog rt l.timestamp ∨ l = finalLog f rt (e r rt) l.timestamp
  | [], store, b => ⟨[], by rw [execRound, List.append_nil], by simp⟩
  | rt :: rts, store, b => by
    rw [execRound]
    by_cases hb : stopB b = true
    · rw [if_pos hb]
      exact ⟨[], by rw [List.append_nil], by simp⟩
    · rw [if_neg hb]
      by_cases hb1 : stopB (decB b) = true
      · rw [if_pos hb1]
        refine ⟨[startedLog rt store.length], rfl, ?_⟩
        intro l hl
        rw [List.mem_singleton] at hl
        subst hl
        exact ⟨rt, List.mem_cons_self _ _, Or.inl rfl⟩
      · rw [if_neg hb1]
        obtain ⟨ext, h1, h2⟩ := execRound_ext f e r rts
          (store ++ [startedLog rt store.length,
            finalLog f rt (e r rt) (store.length + 1)])
          (decB (decB b))
        refine ⟨[startedLog rt store.length,
          finalLog f rt (e r rt) (store.length + 1)] ++ ext, ?_, ?_⟩
        · rw [h1, List.append_assoc]
        · intro l hl
          rcases List.mem_append.mp hl with h | h
          · rcases List.mem_cons.mp h with rfl | h'
            · exact ⟨rt, List.mem_cons_self _ _, Or.inl rfl⟩
            · rw [List.mem_singleton] at h'
              subst h'
              exact ⟨rt, List.mem_cons_self _ _, Or.inr rfl⟩
          · obtain ⟨rt', hrt', hor⟩ := h2 l h
            exact ⟨rt', List.mem_cons_of_mem _ hrt', hor⟩

theorem execRound_complete (f : Bool) (e : Nat → ResolvedTask → ExecOutcome) (r : Nat) :
    ∀ (plan : List ResolvedTask) (store : List EvalLog),
      ∀ rt ∈ plan, ∃ ts, finalLog f rt (e r rt) ts ∈ (execRound f e r plan store none).1
  | [], _ => by simp
  | rt0 :: rts, store => by
    intro rt hrt
    rw [execRound]
    rw [if_neg (by simp [stopB]), if_neg (by simp [stopB, decB])]
    rcases List.mem_cons.mp hrt with rfl | hrt'
    · obtain ⟨ext, h1, _⟩ := execRound_ext f e r rts
        (store ++ [startedLog rt store.length,
          finalLog f rt (e r rt) (store.length + 1)]) (decB (decB none))
      refine ⟨store.length + 1, ?_⟩
      rw [h1]
      apply List.mem_append_left
      apply List.mem_append_right
      simp
    · have hnone : decB (decB none) = none := rfl
      rw [hnone]
      exact execRound_complete f e r rts
        (store ++ [startedLog rt0 store.length,
          finalLog f rt0 (e r rt0) (store.length + 1)]) rt hrt'

theorem execRound_WF (f : Bool) (e : Nat → ResolvedTask → ExecOutcome) (r : Nat) :
    ∀ (plan : List ResolvedTask) (store : List EvalLog) (b : Option Nat),
      WF store →
      (∀ rt ∈ plan, successLogged store rt = false
        ∨ statusOf f (e r rt) = Status.success) →
      (∀ rt ∈ plan, ∀ rt' ∈ plan,
        rt.taskId = rt'.taskId → rt.model = rt'.model → rt = rt') →
      WF (execRound f e r plan store b).1
  | [], store, b => fun hwf _ _ => by rw [execRound]; exact hwf
  | rt :: rts, store, b => by
    intro hwf hH hpairs
    rw [execRound]
    by_cases hb : stopB b = true
    · rw [if_pos hb]
      exact hwf
    · rw [if_neg hb]
      by_cases hb1 : stopB (decB b) = true
      · rw [if_pos hb1]
        exact WF_append_started hwf
      · rw [if_neg hb1]
        have hhead := hH rt (List.mem_cons_self _ _)
        have hwf2 : WF (store ++ [startedLog rt store.length,
            finalLog f rt (e r rt) (store.length + 1)]) :=
          WF_append_exec hwf hhead
        refine execRound_WF f e r rts _ (decB (decB b)) hwf2 ?_ ?_
        · intro rt' hrt'
          by_cases hp : rt'.taskId = rt.taskId ∧ rt'.model = rt.model
          · have heq : rt = rt' := hpairs rt (List.mem_cons_self _ _) rt'
              (List.mem_cons_of_mem _ hrt') hp.1.symm hp.2.symm
            subst heq
            by_cases hst : statusOf f (e r rt) = Status.success
            · exact Or.inr hst
            · left
              unfold successLogged
              have hassoc : store ++ [startedLog rt store.length,
                  finalLog f rt (e r rt) (store.length + 1)]
                  = (store ++ [startedLog rt store.length])
                    ++ [finalLog f rt (e r rt) (store.length + 1)] := by
                simp
              rw [hassoc]
              have hwfS1 : WF (store ++ [startedLog rt store.length]) :=
                WF_append_started hwf
              have hts1 : ∀ l ∈ store ++ [startedLog rt store.length],
                  l.timestamp < (finalLog f rt (e r rt) (store.length + 1)).timestamp := by
                intro l hl
                have := hwfS1.1 l hl
                rw [List.length_append] at this
                simpa [finalLog] using this
              rw [Bool.eq_false_iff]
              intro hcontra
              exact hst ((succAuth_append_last rfl rfl completed_finalLog hts1).mp hcontra)
          · have hclean : ∀ l ∈ [startedLog rt store.length,
                finalLog f rt (e r rt) (store.length + 1)],
                ¬(l.taskId = rt'.taskId ∧ l.model = rt'.model) := by
              intro l hl hmatch
              rcases List.mem_cons.mp hl with rfl | hl'
              · exact hp ⟨hmatch.1.symm, hmatch.2.symm⟩
              · rw [List.mem_singleton] at hl'
                subst hl'
                exact hp ⟨hmatch.1.symm, hmatch.2.symm⟩
            have hsame : successLogged (store ++ [startedLog rt store.length,
                finalLog f rt (e r rt) (store.length + 1)]) rt'
                = successLogged store rt' := succAuth_append_clean hclean
            rw [hsame]
            exact hH rt' (List.mem_cons_of_mem _ hrt')
        · intro a ha a' ha'
          exact hpairs a (List.mem_cons_of_mem _ ha) a' (List.mem_cons_of_mem _ ha')

/-! ### Round plan membership -/

theorem mem_schedule_pending_tasks {P : List ResolvedTask} {rt : ResolvedTask} :
    (∃ bb ∈ schedule_pending_tasks P, rt ∈ bb.2) ↔ rt ∈ P := by
  unfold schedule_pending_tasks
  constructor
  · rintro ⟨bb, hbb, hrt⟩
    rw [(List.perm_insertionSort _ _).mem_iff, List.mem_map] at hbb
    obtain ⟨g, _, rfl⟩ := hbb
    exact (List.mem_filter.mp hrt).1
  · intro hrt
    refine ⟨(pendingModels P rt.taskId,
      P.filter (fun t => pendingModels P t.taskId = pendingModels P rt.taskId)), ?_, ?_⟩
    · rw [(List.perm_insertionSort _ _).mem_iff, List.mem_map]
      refine ⟨pendingModels P rt.taskId, ?_, rfl⟩
      unfold taskGroups
      rw [mem_dedupFirst, List.mem_map]
      exact ⟨rt.taskId, mem_dedupFirst.mpr (List.mem_map.mpr ⟨rt, hrt, rfl⟩), rfl⟩
    · rw [List.mem_filter]
      exact ⟨hrt, by simp⟩

theorem mem_schedule_retry_tasks {P : List ResolvedTask} {rt : ResolvedTask} :
    (∃ bb ∈ schedule_retry_tasks P, rt ∈ bb.2) ↔ rt ∈ P := by
  unfold schedule_retry_tasks
  constructor
  · rintro ⟨bb, hbb, hrt⟩
    rw [List.mem_map] at hbb
    obtain ⟨m, _, rfl⟩ := hbb
    exact (List.mem_filter.mp hrt).1
  · intro hrt
    refine ⟨([rt.model], P.filter (fun t => t.model = rt.model)), ?_, ?_⟩
    · rw [List.mem_map]
      refine ⟨rt.model, ?_, rfl⟩
      rw [mem_sortedModels, List.mem_map]
      exact ⟨rt, hrt, rfl⟩
    · rw [List.mem_filter]
      exact ⟨hrt, by simp⟩

theorem mem_roundPlan {r : Nat} {P : List ResolvedTask} {rt : ResolvedTask} :
    rt ∈ roundPlan r P ↔ rt ∈ P := by
  unfold roundPlan
  split
  · rw [List.mem_flatten]
    constructor
    · rintro ⟨l, hl, hrt⟩
      rw [List.mem_map] at hl
      obtain ⟨bb, hbb, rfl⟩ := hl
      exact mem_schedule_pending_tasks.mp ⟨bb, hbb, hrt⟩
    · intro hrt
      obtain ⟨bb, hbb, hmem⟩ := mem_schedule_pending_tasks.mpr hrt
      exact ⟨bb.2, List.mem_map.mpr ⟨bb, hbb, rfl⟩, hmem⟩
  · rw [List.mem_flatten]
    constructor
    · rintro ⟨l, hl, hrt⟩
      rw [List.mem_map] at hl
      obtain ⟨bb, hbb, rfl⟩ := hl
      exact mem_schedule_retry_tasks.mp ⟨bb, hbb, hrt⟩
    · intro hrt
      obtain ⟨bb, hbb, hmem⟩ := mem_schedule_retry_tasks.mpr hrt
      exact ⟨bb.2, List.mem_map.mpr ⟨bb, hbb, rfl⟩, hmem⟩

/-! ### Orchestration loop lemmas -/

/-- The §3 invariant of the Resolved Task Set: at most one ResolvedTask
per (identity, model) pair. -/
def PairsUnique (resolved : List ResolvedTask) : Prop :=
  ∀ rt ∈ resolved, ∀ rt' ∈ resolved,
    rt.taskId = rt'.taskId → rt.model = rt'.model → rt = rt'

theorem succAuth_isSome {S : List EvalLog} {id : TaskId} {m : ModelRef}
    (h : succAuth S id m = true) : (authPair S id m).isSome = true := by
  obtain ⟨l, hl, _⟩ := succAuth_true_iff.mp h
  rw [hl]
  rfl

theorem execRound_none (f : Bool) (e : Nat → ResolvedTask → ExecOutcome) (r : Nat) :
    ∀ (plan : List ResolvedTask) (store : List EvalLog),
      (execRound f e r plan store none).2 = none
  | [], store => rfl
  | rt :: rts, store => by
    rw [execRound]
    rw [if_neg (by simp [stopB]), if_neg (by simp [stopB, decB])]
    exact execRound_none f e r rts _

theorem evalSetLoop_ext (f : Bool) (e : Nat → ResolvedTask → ExecOutcome)
    (resolved : List ResolvedTask) :
    ∀ (fuel round : Nat) (b : Option Nat) (store : List EvalLog) (sleeps : Nat),
      ∃ ext : List EvalLog,
        (evalSetLoop f e resolved fuel round b store sleeps).store = store ++ ext
          ∧ ∀ l ∈ ext, ∃ rt ∈ resolved, ∃ rr : Nat,
              l = startedLog rt l.timestamp ∨ l = finalLog f rt (e rr rt) l.timestamp
  | 0, round, b, store, sleeps => ⟨[], by rw [evalSetLoop, List.append_nil], by simp⟩
  | fuel + 1, round, b, store, sleeps => by
    rw [evalSetLoop]
    by_cases h1 : (pendingOf resolved store).isEmpty = true
    · rw [if_pos h1]
      exact ⟨[], by rw [List.append_nil], by simp⟩
    · rw [if_neg h1]
      by_cases h2 : stopB b = true
      · rw [if_pos h2]
        exact ⟨[], by rw [List.append_nil], by simp⟩
      · rw [if_neg h2]
        obtain ⟨E, hE1, hE2⟩ := execRound_ext f e round
          (roundPlan round (pendingOf resolved store)) store b
        obtain ⟨ext, hext1, hext2⟩ := evalSetLoop_ext f e resolved fuel (round + 1)
          (execRound f e round (roundPlan round (pendingOf resolved store)) store b).2
          (execRound f e round (roundPlan round (pendingOf resolved store)) store b).1
          (if round = 0 then sleeps else sleeps + 1)
        refine ⟨E ++ ext, ?_, ?_⟩
        · rw [hext1, hE1, List.append_assoc]
        · intro l hl
          rcases List.mem_append.mp hl with h | h
          · obtain ⟨rt, hrt, hor⟩ := hE2 l h
            have hres : rt ∈ resolved :=
              (mem_pendingOf.mp (mem_roundPlan.mp hrt)).1
            exact ⟨rt, hres, round, hor⟩
          · exact hext2 l h

theorem evalSetLoop_WF (f : Bool) (e : Nat → ResolvedTask → ExecOutcome)
    (resolved : List ResolvedTask) (hPU : PairsUnique resolved) :
    ∀ (fuel round : Nat) (b : Option Nat) (store : List EvalLog) (sleeps : Nat),
      WF store → WF (evalSetLoop f e resolved fuel round b store sleeps).store
  | 0, round, b, store, sleeps => fun hwf => by rw [evalSetLoop]; exact hwf
  | fuel + 1, round, b, store, sleeps => by
    intro hwf
    rw [evalSetLoop]
    by_cases h1 : (pendingOf resolved store).isEmpty = true
    · rw [if_pos h1]
      exact hwf
    · rw [if_neg h1]
      by_cases h2 : stopB b = true
      · rw [if_pos h2]
        exact hwf
      · rw [if_neg h2]
        refine evalSetLoop_WF f e resolved hPU fuel (round + 1) _ _ _ ?_
        refine execRound_WF f e round _ store b hwf ?_ ?_
        · intro rt hrt
          exact Or.inl (mem_pendingOf.mp (mem_roundPlan.mp hrt)).2
        · intro rt hrt rt' hrt'
          exact hPU rt (mem_pendingOf.mp (mem_roundPlan.mp hrt)).1
            rt' (mem_pendingOf.mp (mem_roundPlan.mp hrt')).1

theorem evalSetLoop_no_touch (f : Bool) (e : Nat → ResolvedTask → ExecOutcome)
    (resolved : List ResolvedTask) {id : TaskId} {m : ModelRef} :
    ∀ (fuel round : Nat) (b : Option Nat) (store : List EvalLog) (sleeps : Nat),
      succAuth store id m = true →
      ∀ l ∈ (evalSetLoop f e resolved fuel round b store sleeps).store,
        l ∈ store ∨ ¬(l.taskId = id ∧ l.model = m)
  | 0, round, b, store, sleeps => fun _ l hl => by
    rw [evalSetLoop] at hl
    exact Or.inl hl
  | fuel + 1, round, b, store, sleeps => by
    intro hsucc l hl
    rw [evalSetLoop] at hl
    by_cases h1 : (pendingOf resolved store).isEmpty = true
    · rw [if_pos h1] at hl
      exact Or.inl hl
    · rw [if_neg h1] at hl
      by_cases h2 : stopB b = true
      · rw [if_pos h2] at hl
        exact Or.inl hl
      · rw [if_neg h2] at hl
        obtain ⟨E, hE1, hE2⟩ := execRound_ext f e round
          (roundPlan round (pendingOf resolved store)) store b
        have hEclean : ∀ x ∈ E, ¬(x.taskId = id ∧ x.model = m) := by
          intro x hx hmatch
          obtain ⟨rt, hrt, hor⟩ := hE2 x hx
          have hpend := mem_pendingOf.mp (mem_roundPlan.mp hrt)
          have hrtpair : rt.taskId = id ∧ rt.model = m := by
            rcases hor with h | h <;> rw [h] at hmatch <;> exact hmatch
          have : successLogged store rt = true := by
            unfold successLogged
            rw [hrtpair.1, hrtpair.2]
            exact hsucc
          rw [hpend.2] at this
          cases this
        have hsucc2 : succAuth
            (execRound f e round (roundPlan round (pendingOf resolved store)) store b).1
            id m = true := by
          rw [hE1, succAuth_append_clean hEclean]
          exact hsucc
        have := evalSetLoop_no_touch f e resolved fuel (round + 1)
          (execRound f e round (roundPlan round (pendingOf resolved store)) store b).2
          (execRound f e round (roundPlan round (pendingOf resolved store)) store b).1
          (if round = 0 then sleeps else sleeps + 1) hsucc2 l hl
        rcases this with h | h
        · rw [hE1] at h
          rcases List.mem_append.mp h with h' | h'
          · exact Or.inl h'
          · exact Or.inr (hEclean l h')
        · exact Or.inr h

theorem evalSetLoop_completes (f : Bool) (e : Nat → ResolvedTask → ExecOutcome)
    (resolved : List ResolvedTask) :
    ∀ (fuel round : Nat) (store : List EvalLog) (sleeps : Nat),
      ∀ rt ∈ resolved,
        (authLog (evalSetLoop f e resolved (fuel + 1) round none store sleeps).store
          rt).isSome = true := by
  intro fuel round store sleeps rt hrt
  by_cases hsl : successLogged store rt = true
  · obtain ⟨ext, hext, _⟩ := evalSetLoop_ext f e resolved (fuel + 1) round none store sleeps
    rw [hext]
    exact authPair_isSome_mono (succAuth_isSome hsl)
  · have hpend : rt ∈ pendingOf resolved store :=
      mem_pendingOf.mpr ⟨hrt, Bool.eq_false_iff.mpr hsl⟩
    have h1 : (pendingOf resolved store).isEmpty ≠ true := by
      intro hcontra
      rw [List.isEmpty_iff] at hcontra
      rw [hcontra] at hpend
      cases hpend
    rw [evalSetLoop, if_neg h1, if_neg (by simp [stopB])]
    have hplan : rt ∈ roundPlan round (pendingOf resolved store) :=
      mem_roundPlan.mpr hpend
    obtain ⟨ts, hts⟩ := execRound_complete f e round
      (roundPlan round (pendingOf resolved store)) store rt hplan
    have hsome : (authLog
        (execRound f e round (roundPlan round (pendingOf resolved store)) store none).1
        rt).isSome = true := by
      unfold authLog
      rw [authPair_isSome_iff]
      exact ⟨finalLog f rt (e round rt) ts, hts, rfl, rfl, completed_finalLog⟩
    rw [execRound_none]
    obtain ⟨ext, hext, _⟩ := evalSetLoop_ext f e resolved fuel (round + 1) none
      (execRound f e round (roundPlan round (pendingOf resolved store)) store none).1
      (if round = 0 then sleeps else sleeps + 1)
    rw [hext]
    exact authPair_isSome_mono hsome

/-! ### Resolved task set lemmas -/

theorem resolveTasks_pairs_map (tasks : List LogicalTask) (models : List ModelRef) :
    (resolveTasks tasks models).map (fun rt => (rt.taskId, rt.model))
      = (tasks.map (fun t => models.map (fun m => (taskIdOf t, m)))).flatten := by
  unfold resolveTasks
  rw [List.map_map]
  have h1 : ((fun rt : ResolvedTask => (rt.taskId, rt.model)) ∘
      (fun p : Nat × (LogicalTask × ModelRef) =>
        (⟨taskIdOf p.2.1, p.2.2, p.1⟩ : ResolvedTask)))
      = (fun q : LogicalTask × ModelRef => (taskIdOf q.1, q.2)) ∘ Prod.snd := rfl
  rw [h1, ← List.map_map, List.enum_map_snd, List.map_flatten, List.map_map]
  have h2 : ((List.map fun q : LogicalTask × ModelRef => (taskIdOf q.1, q.2)) ∘
      fun t : LogicalTask => List.map (fun m => (t, m)) models)
      = fun t : LogicalTask => List.map (fun m => (taskIdOf t, m)) models := by
    funext t
    rw [Function.comp_apply, List.map_map]
    rfl
  rw [h2]

theorem resolveTasks_pairs_nodup (tasks : List LogicalTask) (models : List ModelRef)
    (hId : (tasks.map taskIdOf).Nodup) (hM : models.Nodup) :
    ((resolveTasks tasks models).map (fun rt => (rt.taskId, rt.model))).Nodup := by
  rw [resolveTasks_pairs_map]
  rw [List.nodup_flatten]
  constructor
  · intro block hblock
    rw [List.mem_map] at hblock
    obtain ⟨t, _, rfl⟩ := hblock
    refine hM.map ?_
    intro a b hab
    injection hab
  · rw [List.pairwise_map]
    have hpw : tasks.Pairwise (fun a b => taskIdOf a ≠ taskIdOf b) :=
      List.pairwise_map.mp hId
    refine hpw.imp ?_
    intro a b hne x hxa hxb
    rw [List.mem_map] at hxa hxb
    obtain ⟨ma, _, rfl⟩ := hxa
    obtain ⟨mb, _, hb⟩ := hxb
    exact hne (congrArg Prod.fst hb.symm)

theorem pairsUnique_of_nodup_map {resolved : List ResolvedTask}
    (h : (resolved.map (fun rt => (rt.taskId, rt.model))).Nodup) :
    PairsUnique resolved := by
  intro rt h1 rt' h2 hid hm
  refine List.inj_on_of_nodup_map h h1 h2 ?_
  rw [hid, hm]

theorem resolveTasks_pairsUnique (tasks : List LogicalTask) (models : List ModelRef)
    (hId : (tasks.map taskIdOf).Nodup) (hM : models.Nodup) :
    PairsUnique (resolveTasks tasks models) :=
  pairsUnique_of_nodup_map (resolveTasks_pairs_nodup tasks models hId hM)

theorem resolveTasks_seq (tasks : List LogicalTask) (models : List ModelRef) :
    (resolveTasks tasks models).map (fun rt => rt.sequence)
      = List.range (resolveTasks tasks models).length := by
  unfold resolveTasks
  rw [List.map_map, List.length_map, List.enum_length]
  have h1 : ((fun rt : ResolvedTask => rt.sequence) ∘
      (fun p : Nat × (LogicalTask × ModelRef) =>
        (⟨taskIdOf p.2.1, p.2.2, p.1⟩ : ResolvedTask))) =
      (Prod.fst : Nat × (LogicalTask × ModelRef) → Nat) := rfl
  rw [h1, List.enum_map_fst]

/-- filterMap where every element maps to some value whose projection
agrees with the element's projection. -/
theorem filterMap_map_eq_of {α β γ : Type} (g : α → Option β) (fa : α → γ) (fb : β → γ) :
    ∀ l : List α, (∀ x ∈ l, ∃ y, g x = some y ∧ fb y = fa x) →
      (l.filterMap g).map fb = l.map fa ∧ (l.filterMap g).length = l.length
  | [], _ => ⟨rfl, rfl⟩
  | x :: xs, h => by
    obtain ⟨y, hy1, hy2⟩ := h x (List.mem_cons_self _ _)
    obtain ⟨ih1, ih2⟩ := filterMap_map_eq_of g fa fb xs
      (fun a ha => h a (List.mem_cons_of_mem _ ha))
    rw [List.filterMap_cons, hy1]
    constructor
    · rw [List.map_cons, List.map_cons, hy2, ih1]
    · rw [List.length_cons, List.length_cons, ih2]

theorem evalSetCore_none_spec (f : Bool) (e : Nat → ResolvedTask → ExecOutcome)
    (resolved : List ResolvedTask) (ra : Nat) (hPU : PairsUnique resolved) :
    ((evalSetCore f e resolved ra none []).logs.map
        (fun l => (l.taskId, l.model, l.sequence))
      = resolved.map (fun rt => (rt.taskId, rt.model, rt.sequence)))
    ∧ (evalSetCore f e resolved ra none []).logs.length = resolved.length
    ∧ ((evalSetCore f e resolved ra none []).success = true
        ↔ ∀ l ∈ (evalSetCore f e resolved ra none []).logs,
            l.status = Status.success) := by
  have hsome : ∀ rt ∈ resolved,
      (authLog (evalSetLoop f e resolved (ra + 1) 0 none [] 0).store rt).isSome = true :=
    evalSetLoop_completes f e resolved ra 0 [] 0
  have hSmem : ∀ l ∈ (evalSetLoop f e resolved (ra + 1) 0 none [] 0).store,
      ∃ rt ∈ resolved, ∃ rr : Nat,
        l = startedLog rt l.timestamp ∨ l = finalLog f rt (e rr rt) l.timestamp := by
    intro l hl
    obtain ⟨ext, hext, hprop⟩ := evalSetLoop_ext f e resolved (ra + 1) 0 none [] 0
    rw [hext, List.nil_append] at hl
    exact hprop l hl
  have hfield : ∀ rt ∈ resolved, ∃ y,
      authLog (evalSetLoop f e resolved (ra + 1) 0 none [] 0).store rt = some y
        ∧ (y.taskId, y.model, y.sequence) = (rt.taskId, rt.model, rt.sequence) := by
    intro rt hrt
    obtain ⟨y, hy⟩ := Option.isSome_iff_exists.mp (hsome rt hrt)
    refine ⟨y, hy, ?_⟩
    have hy' : authPair (evalSetLoop f e resolved (ra + 1) 0 none [] 0).store
        rt.taskId rt.model = some y := hy
    obtain ⟨hyS, hyid, hym, _⟩ := authPair_mem hy'
    obtain ⟨rt', hrt', rr, hor⟩ := hSmem y hyS
    have hf : y.taskId = rt'.taskId ∧ y.model = rt'.model ∧ y.sequence = rt'.sequence := by
      rcases hor with h | h
      · rw [h]
        exact ⟨rfl, rfl, rfl⟩
      · rw [h]
        exact ⟨rfl, rfl, rfl⟩
    have heq : rt' = rt :=
      hPU rt' hrt' rt hrt (by rw [← hf.1, hyid]) (by rw [← hf.2.1, hym])
    rw [hyid, hym, hf.2.2, heq]
  refine ⟨?_, ?_, ?_⟩
  · exact (filterMap_map_eq_of _ _ _ resolved hfield).1
  · exact (filterMap_map_eq_of _ _ _ resolved hfield).2
  · show ((pendingOf resolved
        (evalSetLoop f e resolved (ra + 1) 0 none [] 0).store).isEmpty = true) ↔ _
    rw [pendingOf_isEmpty_iff]
    constructor
    · intro h l hl
      have hl' : l ∈ resolved.filterMap
          (authLog (evalSetLoop f e resolved (ra + 1) 0 none [] 0).store) := hl
      rw [List.mem_filterMap] at hl'
      obtain ⟨rt, hrt, hsome'⟩ := hl'
      obtain ⟨l', hl2, hstat⟩ := succAuth_true_iff.mp (h rt hrt)
      have hsome2 : authPair (evalSetLoop f e resolved (ra + 1) 0 none [] 0).store
          rt.taskId rt.model = some l := hsome'
      rw [hl2] at hsome2
      injection hsome2 with hsome2
      rw [← hsome2]
      exact hstat
    · intro h rt hrt
      obtain ⟨y, hy, _⟩ := hfield rt hrt
      have hyin : y ∈ resolved.filterMap
          (authLog (evalSetLoop f e resolved (ra + 1) 0 none [] 0).store) :=
        List.mem_filterMap.mpr ⟨rt, hrt, hy⟩
      have hys := h y hyin
      unfold successLogged succAuth
      have hy' : authPair (evalSetLoop f e resolved (ra + 1) 0 none [] 0).store
          rt.taskId rt.model = some y := hy
      rw [hy']
      simp [hys]

theorem evalSetCore_logs_length (f : Bool) (e : Nat → ResolvedTask → ExecOutcome)
    (resolved : List ResolvedTask) (ra : Nat) (store0 : List EvalLog) :
    (evalSetCore f e resolved ra none store0).logs.length = resolved.length := by
  have hsome := evalSetLoop_completes f e resolved ra 0 store0 0
  refine (filterMap_map_eq_of
    (authLog (evalSetLoop f e resolved (ra + 1) 0 none store0 0).store)
    (fun _ : ResolvedTask => ()) (fun _ : EvalLog => ()) resolved ?_).2
  intro rt hrt
  obtain ⟨y, hy⟩ := Option.isSome_iff_exists.mp (hsome rt hrt)
  exact ⟨y, hy, rfl⟩

/-- An execution oracle whose every run succeeds with a single clean
sample. -/
def execOk : Nat → ResolvedTask → ExecOutcome := fun _ _ => ⟨[⟨none⟩], false⟩

/-- C4: with unique task identities and distinct models, eval_set returns
a pair (success, logs) with exactly one authoritative log per (task
identity, model) pair — in the resolved tasks' submission order, carrying
their ascending sequence numbers 0,1,2,… — and success is true iff every
returned log has status success; a task that never reaches success keeps
its errored log in the returned list (the log count always equals the
resolved-pair count). -/
theorem eval_set_result_spec (f : Bool) (e : Nat → ResolvedTask → ExecOutcome)
    (tasks : List LogicalTask) (models : List ModelRef) (ra : Nat)
    (hId : (tasks.map taskIdOf).Nodup) (hM : models.Nodup) :
    ∃ r : EvalSetResult,
      eval_set f e tasks models ra none [] = Except.ok r
      ∧ r.logs.map (fun l => (l.taskId, l.model, l.sequence))
          = (resolveTasks tasks models).map
              (fun rt => (rt.taskId, rt.model, rt.sequence))
      ∧ r.logs.map (fun l => l.sequence)
          = List.range (resolveTasks tasks models).length
      ∧ (r.success = true ↔ ∀ l ∈ r.logs, l.status = Status.success) := by
  obtain ⟨h1, h2, h3⟩ := evalSetCore_none_spec f e (resolveTasks tasks models) ra
    (resolveTasks_pairsUnique tasks models hId hM)
  refine ⟨evalSetCore f e (resolveTasks tasks models) ra none [], ?_, h1, ?_, h3⟩
  · unfold eval_set
    rw [if_pos hId]
  · have hseq : (evalSetCore f e (resolveTasks tasks models) ra none []).logs.map
        (fun l => l.sequence)
        = (resolveTasks tasks models).map (fun rt => rt.sequence) := by
      have := congrArg (List.map (fun p : TaskId × ModelRef × Nat => p.2.2)) h1
      rw [List.map_map, List.map_map] at this
      exact this
    rw [hseq, resolveTasks_seq]

/-- Witness for C4 at two concrete tasks over two models with an
always-succeeding execution oracle. -/
theorem eval_set_result_spec_witness :
    ∃ r : EvalSetResult,
      eval_set false execOk [⟨"t1", [], 0⟩, ⟨"t2", [], 0⟩] ["m1", "m2"] 0 none []
          = Except.ok r
      ∧ r.logs.map (fun l => (l.taskId, l.model, l.sequence))
          = (resolveTasks [⟨"t1", [], 0⟩, ⟨"t2", [], 0⟩] ["m1", "m2"]).map
              (fun rt => (rt.taskId, rt.model, rt.sequence))
      ∧ r.logs.map (fun l => l.sequence)
          = List.range (resolveTasks [⟨"t1", [], 0⟩, ⟨"t2", [], 0⟩] ["m1", "m2"]).length
      ∧ (r.success = true ↔ ∀ l ∈ r.logs, l.status = Status.success) :=
  eval_set_result_spec false execOk _ _ 0 (by decide) (by decide)

/-! ### Zero-retry behavior (C7) -/

theorem anyError_takeToFirstError (ss : List SampleResult) :
    anyError (takeToFirstError ss) = anyError ss := by
  induction ss with
  | nil => rfl
  | cons s ss ih =>
    rw [takeToFirstError]
    by_cases h : s.error.isSome = true
    · rw [if_pos h]
      simp [anyError, h]
    · rw [if_neg h]
      simp only [anyError, List.any_cons] at ih ⊢
      rw [ih]

theorem statusOf_error_of_anyError {f : Bool} {o : ExecOutcome}
    (h : anyError o.samples = true) : statusOf f o = Status.error := by
  unfold statusOf
  have h2 : anyError (observedSamples f o.samples) = true := by
    unfold observedSamples
    cases f
    · simpa using h
    · simpa [anyError_takeToFirstError] using h
  rw [h2]
  simp

/-- C7: with retry_attempts = 0 and any resolved task whose execution
always reports a failing sample, eval_set on a fresh log directory
returns success = false after exactly one round, with no retry round
executed and no retry-wait sleep performed. -/
theorem eval_set_zero_retries_spec (f : Bool) (e : Nat → ResolvedTask → ExecOutcome)
    (tasks : List LogicalTask) (models : List ModelRef) (rt : ResolvedTask)
    (hId : (tasks.map taskIdOf).Nodup) (hM : models.Nodup)
    (hmem : rt ∈ resolveTasks tasks models)
    (hfail : ∀ rr : Nat, anyError (e rr rt).samples = true) :
    ∃ r : EvalSetResult,
      eval_set f e tasks models 0 none [] = Except.ok r
      ∧ r.success = false ∧ r.rounds = 1 ∧ r.sleeps = 0 := by
  have hPU := resolveTasks_pairsUnique tasks models hId hM
  have hpend0 : pendingOf (resolveTasks tasks models) [] = resolveTasks tasks models :=
    List.filter_eq_self.mpr (fun a _ => rfl)
  have hne : (pendingOf (resolveTasks tasks models) []).isEmpty ≠ true := by
    rw [hpend0]
    intro hc
    rw [List.isEmpty_iff] at hc
    rw [hc] at hmem
    cases hmem
  have hloop : evalSetLoop f e (resolveTasks tasks models) 1 0 none [] 0
      = ⟨(execRound f e 0
          (roundPlan 0 (pendingOf (resolveTasks tasks models) [])) [] none).1, 1, 0⟩ := by
    rw [evalSetLoop, if_neg hne, if_neg (by simp [stopB]), execRound_none, evalSetLoop]
    norm_num
  have hsl : successLogged
      (execRound f e 0
        (roundPlan 0 (pendingOf (resolveTasks tasks models) [])) [] none).1 rt = false := by
    rw [Bool.eq_false_iff]
    intro hcontra
    obtain ⟨l, hlS, hlid, hlm, hlsucc⟩ := succAuth_exists hcontra
    obtain ⟨ext, hext, hprop⟩ := execRound_ext f e 0
      (roundPlan 0 (pendingOf (resolveTasks tasks models) [])) [] none
    rw [hext, List.nil_append] at hlS
    obtain ⟨rt', hrt', hor⟩ := hprop l hlS
    have hrtres : rt' ∈ resolveTasks tasks models := by
      have := mem_roundPlan.mp hrt'
      rw [hpend0] at this
      exact this
    rcases hor with hshape | hshape
    · rw [hshape] at hlsucc
      exact absurd hlsucc (by simp [startedLog])
    · have hid2 : rt'.taskId = rt.taskId := by
        rw [hshape] at hlid
        exact hlid
      have hm2 : rt'.model = rt.model := by
        rw [hshape] at hlm
        exact hlm
      have heq : rt' = rt := hPU rt' hrtres rt hmem hid2 hm2
      rw [hshape] at hlsucc
      have : statusOf f (e 0 rt') = Status.success := hlsucc
      rw [heq, statusOf_error_of_anyError (hfail 0)] at this
      cases this
  have hpendmem : rt ∈ pendingOf (resolveTasks tasks models)
      (execRound f e 0
        (roundPlan 0 (pendingOf (resolveTasks tasks models) [])) [] none).1 :=
    mem_pendingOf.mpr ⟨hmem, hsl⟩
  refine ⟨evalSetCore f e (resolveTasks tasks models) 0 none [], ?_, ?_, ?_, ?_⟩
  · unfold eval_set
    rw [if_pos hId]
  · show (pendingOf (resolveTasks tasks models)
      (evalSetLoop f e (resolveTasks tasks models) 1 0 none [] 0).store).isEmpty = false
    rw [hloop]
    rw [Bool.eq_false_iff]
    intro hc
    rw [List.isEmpty_iff] at hc
    rw [hc] at hpendmem
    cases hpendmem
  · show (evalSetLoop f e (resolveTasks tasks models) 1 0 none [] 0).rounds = 1
    rw [hloop]
  · show (evalSetLoop f e (resolveTasks tasks models) 1 0 none [] 0).sleeps = 0
    rw [hloop]

/-- A deterministic execution oracle whose single sample always fails. -/
def execFail : Nat → ResolvedTask → ExecOutcome := fun _ _ => ⟨[⟨some "boom"⟩], false⟩

/-- Witness for C7 at one concrete task and model with an execution
oracle carrying a deterministically failing sample. -/
theorem eval_set_zero_retries_spec_witness :
    ∃ r : EvalSetResult,
      eval_set false execFail [⟨"t", [], 0⟩] ["m"] 0 none [] = Except.ok r
      ∧ r.success = false ∧ r.rounds = 1 ∧ r.sleeps = 0 :=
  eval_set_zero_retries_spec false execFail [⟨"t", [], 0⟩] ["m"] ⟨⟨"t", []⟩, "m", 0⟩
    (by decide) (by decide) (by decide) (fun _ => rfl)

/-! ### Idempotent resumption (C3) -/

/-- C3: an eval_set invocation on a fresh log directory — run to
completion or interrupted at any point (budget `b1`) — followed by two
further invocations of the same tasks and models over the same store:
both re-invocations complete without error, neither writes any log for a
(task identity, model) pair already logged with status success (so such a
ResolvedTask is never re-executed), and both return exactly one
authoritative log per resolved pair, so the output log count of the third
run equals that of the second. -/
theorem eval_set_idempotent_resume_spec (f : Bool)
    (e1 e2 e3 : Nat → ResolvedTask → ExecOutcome)
    (tasks : List LogicalTask) (models : List ModelRef)
    (ra1 ra2 ra3 : Nat) (b1 : Option Nat)
    (hId : (tasks.map taskIdOf).Nodup) (hM : models.Nodup) :
    ∃ r1 r2 r3 : EvalSetResult,
      eval_set f e1 tasks models ra1 b1 [] = Except.ok r1
      ∧ eval_set f e2 tasks models ra2 none r1.store = Except.ok r2
      ∧ eval_set f e3 tasks models ra3 none r2.store = Except.ok r3
      ∧ (∀ rt ∈ resolveTasks tasks models,
          hasSuccess r1.store rt.taskId rt.model →
          ∀ l ∈ r2.store, l ∈ r1.store ∨ ¬(l.taskId = rt.taskId ∧ l.model = rt.model))
      ∧ (∀ rt ∈ resolveTasks tasks models,
          hasSuccess r2.store rt.taskId rt.model →
          ∀ l ∈ r3.store, l ∈ r2.store ∨ ¬(l.taskId = rt.taskId ∧ l.model = rt.model))
      ∧ r2.logs.length = (resolveTasks tasks models).length
      ∧ r3.logs.length = r2.logs.length := by
  have hPU := resolveTasks_pairsUnique tasks models hId hM
  have hwf1 : WF (evalSetCore f e1 (resolveTasks tasks models) ra1 b1 []).store :=
    evalSetLoop_WF f e1 (resolveTasks tasks models) hPU (ra1 + 1) 0 b1 [] 0 WF_nil
  have hwf2 : WF (evalSetCore f e2 (resolveTasks tasks models) ra2 none
      (evalSetCore f e1 (resolveTasks tasks models) ra1 b1 []).store).store :=
    evalSetLoop_WF f e2 (resolveTasks tasks models) hPU (ra2 + 1) 0 none _ 0 hwf1
  refine ⟨evalSetCore f e1 (resolveTasks tasks models) ra1 b1 [],
    evalSetCore f e2 (resolveTasks tasks models) ra2 none
      (evalSetCore f e1 (resolveTasks tasks models) ra1 b1 []).store,
    evalSetCore f e3 (resolveTasks tasks models) ra3 none
      (evalSetCore f e2 (resolveTasks tasks models) ra2 none
        (evalSetCore f e1 (resolveTasks tasks models) ra1 b1 []).store).store,
    ?_, ?_, ?_, ?_, ?_, ?_, ?_⟩
  · unfold eval_set
    rw [if_pos hId]
  · unfold eval_set
    rw [if_pos hId]
  · unfold eval_set
    rw [if_pos hId]
  · intro rt hrt hsucc l hl
    exact evalSetLoop_no_touch f e2 (resolveTasks tasks models) (ra2 + 1) 0 none
      (evalSetCore f e1 (resolveTasks tasks models) ra1 b1 []).store 0
      (hwf1.2 rt.taskId rt.model hsucc) l hl
  · intro rt hrt hsucc l hl
    exact evalSetLoop_no_touch f e3 (resolveTasks tasks models) (ra3 + 1) 0 none
      (evalSetCore f e2 (resolveTasks tasks models) ra2 none
        (evalSetCore f e1 (resolveTasks tasks models) ra1 b1 []).store).store 0
      (hwf2.2 rt.taskId rt.model hsucc) l hl
  · exact evalSetCore_logs_length f e2 (resolveTasks tasks models) ra2 _
  · rw [evalSetCore_logs_length f e3 (resolveTasks tasks models) ra3 _,
      evalSetCore_logs_length f e2 (resolveTasks tasks models) ra2 _]

/-- Witness for C3: a first run interrupted after a single log write,
then two clean re-invocations, at one concrete task pair. -/
theorem eval_set_idempotent_resume_spec_witness :
    ∃ r1 r2 r3 : EvalSetResult,
      eval_set false execOk [⟨"t1", [], 0⟩, ⟨"t2", [], 0⟩] ["m"] 0 (some 1) []
          = Except.ok r1
      ∧ eval_set false execOk [⟨"t1", [], 0⟩, ⟨"t2", [], 0⟩] ["m"] 0 none r1.store
          = Except.ok r2
      ∧ eval_set false execOk [⟨"t1", [], 0⟩, ⟨"t2", [], 0⟩] ["m"] 0 none r2.store
          = Except.ok r3
      ∧ (∀ rt ∈ resolveTasks [⟨"t1", [], 0⟩, ⟨"t2", [], 0⟩] ["m"],
          hasSuccess r1.store rt.taskId rt.model →
          ∀ l ∈ r2.store, l ∈ r1.store ∨ ¬(l.taskId = rt.taskId ∧ l.model = rt.model))
      ∧ (∀ rt ∈ resolveTasks [⟨"t1", [], 0⟩, ⟨"t2", [], 0⟩] ["m"],
          hasSuccess r2.store rt.taskId rt.model →
          ∀ l ∈ r3.store, l ∈ r2.store ∨ ¬(l.taskId = rt.taskId ∧ l.model = rt.model))
      ∧ r2.logs.length = (resolveTasks [⟨"t1", [], 0⟩, ⟨"t2", [], 0⟩] ["m"]).length
      ∧ r3.logs.length = r2.logs.length :=
  eval_set_idempotent_resume_spec false execOk execOk execOk
    [⟨"t1", [], 0⟩, ⟨"t2", [], 0⟩] ["m"] 0 0 0 (some 1) (by decide) (by decide)

/-! ### Configuration errors and task identity (C5, C10) -/

/-- C5: submitting two logical tasks with identical identity (same name
and parameter values) in one invocation raises a configuration error
before any execution begins and before any log is written: eval_set
returns the error immediately and never produces an ok result, for every
execution oracle, budget and store. -/
theorem eval_set_duplicate_identity_spec (f : Bool)
    (e : Nat → ResolvedTask → ExecOutcome) (tasks : List LogicalTask)
    (models : List ModelRef) (ra : Nat) (b : Option Nat) (store0 : List EvalLog)
    (hdup : ¬(tasks.map taskIdOf).Nodup) :
    eval_set f e tasks models ra b store0 = Except.error "duplicate task identity"
    ∧ ∀ r : EvalSetResult, eval_set f e tasks models ra b store0 ≠ Except.ok r := by
  have herr : eval_set f e tasks models ra b store0
      = Except.error "duplicate task identity" := by
    unfold eval_set
    rw [if_neg hdup]
  refine ⟨herr, ?_⟩
  intro r hok
  rw [herr] at hok
  cases hok

/-- Witness for C5: two tasks with identical name and parameters but
different bodies are rejected. -/
theorem eval_set_duplicate_identity_spec_witness :
    eval_set false execOk [⟨"t", [], 0⟩, ⟨"t", [], 1⟩] ["m"] 0 none []
        = Except.error "duplicate task identity"
    ∧ ∀ r : EvalSetResult,
        eval_set false execOk [⟨"t", [], 0⟩, ⟨"t", [], 1⟩] ["m"] 0 none []
          ≠ Except.ok r :=
  eval_set_duplicate_identity_spec false execOk [⟨"t", [], 0⟩, ⟨"t", [], 1⟩]
    ["m"] 0 none [] (by decide)

/-- Modelled from the test's @task factory: calling the factory with an
argument it never uses produces structurally identical task bodies
(`content` and `name` equal), while the identity records the call
arguments. -/
def make_task (param : String) : LogicalTask :=
  ⟨"make_task", [("param", param)], 7⟩

/-- C10: task identity derives from the factory's call arguments, not
the produced body: two calls with different argument values yield
distinct identities while the produced bodies are structurally identical,
and one eval_set invocation runs both to success; two calls with
identical argument values yield identical identities and are rejected as
a configuration error. -/
theorem task_identity_from_args_spec :
    taskIdOf (make_task "a") ≠ taskIdOf (make_task "b")
    ∧ (make_task "a").content = (make_task "b").content
    ∧ (make_task "a").name = (make_task "b").name
    ∧ (∃ r : EvalSetResult,
        eval_set false execOk [make_task "a", make_task "b"] ["m"] 100 none []
            = Except.ok r
          ∧ r.success = true)
    ∧ taskIdOf (make_task "a") = taskIdOf (make_task "a")
    ∧ eval_set false execOk [make_task "a", make_task "a"] ["m"] 100 none []
        = Except.error "duplicate task identity" := by
  refine ⟨by decide, rfl, rfl, ?_, rfl, by rfl⟩
  exact ⟨evalSetCore false execOk
    (resolveTasks [make_task "a", make_task "b"] ["m"]) 100 none [], by rfl, by rfl⟩

/-! ### Per-sample failure recording (C8) -/

theorem anyError_iff {ss : List SampleResult} :
    anyError ss = true ↔ ∃ s ∈ ss, s.error ≠ none := by
  unfold anyError
  rw [List.any_eq_true]
  simp [Option.isSome_iff_ne_none]

/-- C8: with fail_on_error false, the final log carries every sample
outcome in place, so the count of samples recorded with a non-null error
equals the count of failing samples; the task's own status is error iff
some sample failed or the task-level execution itself raised; and
failures do not stop sibling tasks — every task of a round's plan still
receives a completed (non-started) log. -/
theorem fail_on_error_false_spec (e : Nat → ResolvedTask → ExecOutcome)
    (rt : ResolvedTask) (o : ExecOutcome) (ts r : Nat)
    (plan : List ResolvedTask) (store : List EvalLog) :
    (finalLog false rt o ts).samples = o.samples
    ∧ ((finalLog false rt o ts).samples.filter (fun s => s.error.isSome)).length
        = (o.samples.filter (fun s => s.error.isSome)).length
    ∧ ((finalLog false rt o ts).status = Status.error
        ↔ (o.raised = true ∨ ∃ s ∈ o.samples, s.error ≠ none))
    ∧ ∀ rt' ∈ plan, ∃ l ∈ (execRound false e r plan store none).1,
        l.taskId = rt'.taskId ∧ l.model = rt'.model ∧ l.status ≠ Status.started := by
  refine ⟨rfl, rfl, ?_, ?_⟩
  · have hobs : observedSamples false o.samples = o.samples := rfl
    have hse : statusOf false o = Status.error
        ↔ (o.raised || anyError o.samples) = true := by
      unfold statusOf
      rw [hobs]
      by_cases hc : (o.raised || anyError o.samples) = true
      · rw [if_pos hc]
        simp [hc]
      · rw [if_neg hc]
        constructor
        · intro h
          cases h
        · intro h
          exact absurd h hc
    show statusOf false o = Status.error ↔ _
    rw [hse, Bool.or_eq_true, anyError_iff]
  · intro rt' h'
    obtain ⟨ts', hts⟩ := execRound_complete false e r plan store rt' h'
    exact ⟨finalLog false rt' (e r rt') ts', hts, rfl, rfl, statusOf_ne_started⟩

/-- Witness for C8 at a concrete mixed outcome (one failing, one clean
sample) and a two-task plan. -/
theorem fail_on_error_false_spec_witness :
    (finalLog false ⟨⟨"t", []⟩, "m", 0⟩ ⟨[⟨some "x"⟩, ⟨none⟩], false⟩ 5).samples
        = [⟨some "x"⟩, ⟨none⟩]
    ∧ (((finalLog false ⟨⟨"t", []⟩, "m", 0⟩ ⟨[⟨some "x"⟩, ⟨none⟩], false⟩ 5).samples.filter
          (fun s => s.error.isSome)).length
        = (([⟨some "x"⟩, ⟨none⟩] : List SampleResult).filter
            (fun s => s.error.isSome)).length)
    ∧ ((finalLog false ⟨⟨"t", []⟩, "m", 0⟩ ⟨[⟨some "x"⟩, ⟨none⟩], false⟩ 5).status
          = Status.error
        ↔ (false = true ∨ ∃ s ∈ ([⟨some "x"⟩, ⟨none⟩] : List SampleResult),
            s.error ≠ none))
    ∧ ∀ rt' ∈ [(⟨⟨"t1", []⟩, "m", 0⟩ : ResolvedTask), ⟨⟨"t2", []⟩, "m", 1⟩],
        ∃ l ∈ (execRound false execFail 0
            [⟨⟨"t1", []⟩, "m", 0⟩, ⟨⟨"t2", []⟩, "m", 1⟩] [] none).1,
          l.taskId = rt'.taskId ∧ l.model = rt'.model ∧ l.status ≠ Status.started :=
  fail_on_error_false_spec execFail ⟨⟨"t", []⟩, "m", 0⟩ ⟨[⟨some "x"⟩, ⟨none⟩], false⟩ 5 0
    [⟨⟨"t1", []⟩, "m", 0⟩, ⟨⟨"t2", []⟩, "m", 1⟩] []

/-- Witness for C6 at a concrete two-log directory: cleanup leaves
exactly the selected authoritative log, which is the later of the two. -/
theorem latest_completed_task_eval_logs_spec_witness :
    (latest_completed_task_eval_logs (list_all_eval_logs exLogs) true).2
        = (latest_completed_task_eval_logs (list_all_eval_logs exLogs) false).1
      ∧ (latest_completed_task_eval_logs (list_all_eval_logs exLogs) true).2
        = [⟨⟨"t", []⟩, "m", .success, [], 0, 1⟩] :=
  ⟨(latest_completed_task_eval_logs_spec exLogs).2.2.2, by rfl⟩

end EvalSet
